import Mathlib

/-!
Verification development for the disk-extractor encoding core.

Shallow embedding of the Python sources:
  * `src/models/encoding_models.py`   — job / progress / history records and
    the `ExtendedMetadata` helpers (dict ↔ dataclass conversion, history cap);
  * `src/models/encoding_engine.py`   — the engine state machine
    (`queue_encoding_job`, `cancel_job`, `_process_queue` / `_start_encoding_job`,
    `_handle_job_completion`, `_parse_handbrake_progress`);
  * `src/models/metadata_manager.py`  — `save_metadata` / `load_metadata`
    (projected onto the encoding section of the per-file record);
  * `src/utils/validation.py`         — `validate_filename`.

Python dicts produced by `to_dict` are embedded as Lean structures whose
fields are the dict keys; Python floats originating from decimal text are
embedded as rationals; wall-clock timestamps (`datetime.now().isoformat()`)
are threaded as explicit `now : String` parameters; fallible Python code
(raising `ValidationError` / `ValueError`) returns `Except` / `Option`.
-/

namespace DiskExtractor

/-- `EncodingStatus` enum from `encoding_models.py`. -/
inductive EncodingStatus where
  | not_queued
  | queued
  | encoding
  | completed
  | failed
  | cancelled
  deriving DecidableEq, Repr

/-- The `.value` string of each `EncodingStatus` member. -/
def EncodingStatus.value : EncodingStatus → String
  | .not_queued => "not_queued"
  | .queued => "queued"
  | .encoding => "encoding"
  | .completed => "completed"
  | .failed => "failed"
  | .cancelled => "cancelled"

/-- `EncodingStatus(s)` construction from the value string; Python raises
`ValueError` on an unknown string, embedded as `none`. -/
def EncodingStatus.ofValue : String → Option EncodingStatus
  | "not_queued" => some .not_queued
  | "queued" => some .queued
  | "encoding" => some .encoding
  | "completed" => some .completed
  | "failed" => some .failed
  | "cancelled" => some .cancelled
  | _ => none

/-- A status is terminal when it is COMPLETED, FAILED or CANCELLED. -/
def EncodingStatus.isTerminal : EncodingStatus → Bool
  | .completed => true
  | .failed => true
  | .cancelled => true
  | _ => false

/-- `EncodingPhase` enum from `encoding_models.py`. -/
inductive EncodingPhase where
  | scanning
  | encoding
  | muxing
  | completed
  deriving DecidableEq, Repr

/-- The `.value` string of each `EncodingPhase` member. -/
def EncodingPhase.value : EncodingPhase → String
  | .scanning => "scanning"
  | .encoding => "encoding"
  | .muxing => "muxing"
  | .completed => "completed"

/-- `EncodingPhase(s)` construction from the value string. -/
def EncodingPhase.ofValue : String → Option EncodingPhase
  | "scanning" => some .scanning
  | "encoding" => some .encoding
  | "muxing" => some .muxing
  | "completed" => some .completed
  | _ => none

/-- `EncodingProgress` dataclass from `encoding_models.py`.  Float fields are
embedded as rationals, int fields as integers. -/
structure EncodingProgress where
  percentage : Rat := 0
  fps : Rat := 0
  time_elapsed : Int := 0
  time_remaining : Int := 0
  current_pass : Int := 1
  total_passes : Int := 1
  phase : EncodingPhase := .scanning
  average_bitrate : Rat := 0
  output_size_mb : Rat := 0
  last_updated : String := ""
  deriving DecidableEq, Repr

/-- The dict produced by `EncodingProgress.to_dict`: same keys, with `phase`
replaced by its value string. -/
structure EncodingProgressDict where
  percentage : Rat
  fps : Rat
  time_elapsed : Int
  time_remaining : Int
  current_pass : Int
  total_passes : Int
  phase : String
  average_bitrate : Rat
  output_size_mb : Rat
  last_updated : String
  deriving DecidableEq, Repr

/-- `EncodingProgress.to_dict`: `asdict(self)` with `data['phase'] = self.phase.value`. -/
def EncodingProgress.to_dict (p : EncodingProgress) : EncodingProgressDict :=
  { percentage := p.percentage
    fps := p.fps
    time_elapsed := p.time_elapsed
    time_remaining := p.time_remaining
    current_pass := p.current_pass
    total_passes := p.total_passes
    phase := p.phase.value
    average_bitrate := p.average_bitrate
    output_size_mb := p.output_size_mb
    last_updated := p.last_updated }

/-- `EncodingProgress.from_dict`: converts the `phase` string back to the enum
(`EncodingPhase(...)` raises on an unknown string, hence `Option`). -/
def EncodingProgress.from_dict (d : EncodingProgressDict) : Option EncodingProgress :=
  match EncodingPhase.ofValue d.phase with
  | none => none
  | some ph =>
    some { percentage := d.percentage
           fps := d.fps
           time_elapsed := d.time_elapsed
           time_remaining := d.time_remaining
           current_pass := d.current_pass
           total_passes := d.total_passes
           phase := ph
           average_bitrate := d.average_bitrate
           output_size_mb := d.output_size_mb
           last_updated := d.last_updated }

/-- `EncodingJob` dataclass from `encoding_models.py`.  `__post_init__`
guarantees `progress` and `failure_logs` are never `None`, so they are embedded
as plain fields; `created_at` is filled with the current time when empty at
construction, which is modelled in `mk` and `from_dict` below. -/
structure EncodingJob where
  file_name : String
  title_number : Int
  movie_name : String
  output_filename : String
  preset_name : String
  status : EncodingStatus := .not_queued
  queue_position : Int := 0
  job_id : String := ""
  created_at : String := ""
  started_at : String := ""
  completed_at : String := ""
  progress : EncodingProgress := {}
  error_message : String := ""
  failure_logs : List String := []
  output_path : String := ""
  output_size_mb : Rat := 0
  deriving DecidableEq, Repr

/-- `EncodingJob.__post_init__`: an empty `created_at` is replaced by the
current time (`now`); a `None` progress / failure-log list becomes the default
(already guaranteed by the field types here). -/
def EncodingJob.post_init (now : String) (j : EncodingJob) : EncodingJob :=
  if j.created_at = "" then { j with created_at := now } else j

/-- The dict produced by `EncodingJob.to_dict`: same keys, `status` as its
value string and `progress` as its own dict. -/
structure EncodingJobDict where
  file_name : String
  title_number : Int
  movie_name : String
  output_filename : String
  preset_name : String
  status : String
  queue_position : Int
  job_id : String
  created_at : String
  started_at : String
  completed_at : String
  progress : EncodingProgressDict
  error_message : String
  failure_logs : List String
  output_path : String
  output_size_mb : Rat
  deriving DecidableEq, Repr

/-- `EncodingJob.to_dict`: `asdict(self)` with `status` and `progress`
converted. -/
def EncodingJob.to_dict (j : EncodingJob) : EncodingJobDict :=
  { file_name := j.file_name
    title_number := j.title_number
    movie_name := j.movie_name
    output_filename := j.output_filename
    preset_name := j.preset_name
    status := j.status.value
    queue_position := j.queue_position
    job_id := j.job_id
    created_at := j.created_at
    started_at := j.started_at
    completed_at := j.completed_at
    progress := j.progress.to_dict
    error_message := j.error_message
    failure_logs := j.failure_logs
    output_path := j.output_path
    output_size_mb := j.output_size_mb }

/-- `EncodingJob.from_dict`: converts `status` and `progress` back, then
constructs the dataclass, whose `__post_init__` runs with the current time
`now`. -/
def EncodingJob.from_dict (now : String) (d : EncodingJobDict) : Option EncodingJob :=
  match EncodingStatus.ofValue d.status, EncodingProgress.from_dict d.progress with
  | some st, some pr =>
    some (EncodingJob.post_init now
      { file_name := d.file_name
        title_number := d.title_number
        movie_name := d.movie_name
        output_filename := d.output_filename
        preset_name := d.preset_name
        status := st
        queue_position := d.queue_position
        job_id := d.job_id
        created_at := d.created_at
        started_at := d.started_at
        completed_at := d.completed_at
        progress := pr
        error_message := d.error_message
        failure_logs := d.failure_logs
        output_path := d.output_path
        output_size_mb := d.output_size_mb })
  | _, _ => none

/-- `EncodingHistory` dataclass from `encoding_models.py`. -/
structure EncodingHistory where
  attempt_id : String
  started_at : String
  completed_at : String
  status : EncodingStatus
  output_size_mb : Rat := 0
  encoding_time_seconds : Int := 0
  error_message : String := ""
  preset_used : String := ""
  deriving DecidableEq, Repr

/-- The dict produced by `EncodingHistory.to_dict`. -/
structure EncodingHistoryDict where
  attempt_id : String
  started_at : String
  completed_at : String
  status : String
  output_size_mb : Rat
  encoding_time_seconds : Int
  error_message : String
  preset_used : String
  deriving DecidableEq, Repr

/-- `EncodingHistory.to_dict`. -/
def EncodingHistory.to_dict (h : EncodingHistory) : EncodingHistoryDict :=
  { attempt_id := h.attempt_id
    started_at := h.started_at
    completed_at := h.completed_at
    status := h.status.value
    output_size_mb := h.output_size_mb
    encoding_time_seconds := h.encoding_time_seconds
    error_message := h.error_message
    preset_used := h.preset_used }

/-- `EncodingHistory.from_dict`. -/
def EncodingHistory.from_dict (d : EncodingHistoryDict) : Option EncodingHistory :=
  match EncodingStatus.ofValue d.status with
  | none => none
  | some st =>
    some { attempt_id := d.attempt_id
           started_at := d.started_at
           completed_at := d.completed_at
           status := st
           output_size_mb := d.output_size_mb
           encoding_time_seconds := d.encoding_time_seconds
           error_message := d.error_message
           preset_used := d.preset_used }

/-- The `encoding` sub-dict of a per-file metadata record: the keys the claims
touch are the `jobs` and `history` lists of dicts (the `settings` sub-dict is
created alongside them but never read by the embedded operations, so it is not
modelled). -/
structure EncodingSection where
  jobs : List EncodingJobDict
  history : List EncodingHistoryDict
  deriving DecidableEq, Repr

/-- A per-file metadata record, projected onto the parts the encoding core
reads and writes: the optional `encoding` key.  The unrelated movie fields
(`file_name`, `size_mb`, `titles`, …) are outside the claims. -/
structure Metadata where
  encoding : Option EncodingSection
  deriving DecidableEq, Repr

/-- Python `l[-n:]`: the last `n` elements. -/
def takeLastN (n : Nat) (l : List α) : List α :=
  l.drop (l.length - n)

namespace ExtendedMetadata

/-- `ExtendedMetadata.ensure_encoding_structure`: adds an empty
`encoding.jobs` / `encoding.history` when missing. -/
def ensure_encoding_structure (m : Metadata) : Metadata :=
  match m.encoding with
  | none => { encoding := some { jobs := [], history := [] } }
  | some sec => { encoding := some sec }

/-- The encoding section after `ensure_encoding_structure`. -/
def section_of (m : Metadata) : EncodingSection :=
  match m.encoding with
  | none => { jobs := [], history := [] }
  | some sec => sec

/-- `ExtendedMetadata.get_encoding_jobs`: parses each stored job dict with
`EncodingJob.from_dict`, skipping entries that raise (`KeyError`/`ValueError`).
`now` is the clock value the constructor's `__post_init__` would read. -/
def get_encoding_jobs (now : String) (m : Metadata) : List EncodingJob :=
  (section_of m).jobs.filterMap (EncodingJob.from_dict now)

/-- `ExtendedMetadata.set_encoding_jobs`: stores `job.to_dict()` for each job. -/
def set_encoding_jobs (m : Metadata) (jobs : List EncodingJob) : Metadata :=
  { encoding := some { section_of m with jobs := jobs.map EncodingJob.to_dict } }

/-- `ExtendedMetadata.get_encoding_history`. -/
def get_encoding_history (m : Metadata) : List EncodingHistory :=
  (section_of m).history.filterMap EncodingHistory.from_dict

/-- `ExtendedMetadata.add_encoding_history`: appends the entry's dict, then
keeps only the last 10 entries when the list exceeds 10. -/
def add_encoding_history (m : Metadata) (entry : EncodingHistory) : Metadata :=
  let sec := section_of m
  let h := sec.history ++ [entry.to_dict]
  let h := if h.length > 10 then takeLastN 10 h else h
  { encoding := some { sec with history := h } }

end ExtendedMetadata

/-- The persisted `.mmm` record store, keyed by the validated `.img` file name
(`MovieMetadataManager` writes one JSON record per source file). -/
def MetaStore := List (String × Metadata)

/-- Association-list lookup by key. -/
def storeLookup (st : MetaStore) (key : String) : Option Metadata :=
  match st with
  | [] => none
  | (k, m) :: rest => if k = key then some m else storeLookup rest key

/-- Association-list upsert by key (`_atomic_write_json` replaces the record). -/
def storeUpsert (st : MetaStore) (key : String) (m : Metadata) : MetaStore :=
  match st with
  | [] => [(key, m)]
  | (k, m') :: rest =>
    if k = key then (k, m) :: rest else (k, m') :: storeUpsert rest key m

/-- `MovieMetadataManager._load_file_metadata`, projected onto the encoding
section: starts from the default structure, overlays the stored record when one
exists (`metadata.update(json.load(f))`), and runs
`ensure_encoding_structure`. -/
def loadRecord (st : MetaStore) (key : String) : Metadata :=
  match storeLookup st key with
  | none => ExtendedMetadata.ensure_encoding_structure { encoding := none }
  | some m => ExtendedMetadata.ensure_encoding_structure m

/-- `MovieMetadataManager.save_metadata`'s effect on the store (after filename
validation): an atomic write of the record under its key. -/
def saveRecord (st : MetaStore) (key : String) (m : Metadata) : MetaStore :=
  storeUpsert st key m

theorem storeLookup_upsert (st : MetaStore) (key : String) (m : Metadata) :
    storeLookup (storeUpsert st key m) key = some m := by
  induction st with
  | nil => simp [storeUpsert, storeLookup]
  | cons p rest ih =>
    by_cases h : p.1 = key
    · simp [storeUpsert, storeLookup, h]
    · simp [storeUpsert, storeLookup, h, ih]

/-- `pat` is a leading run of `l` (helper for Python's `in` / `endswith`). -/
def startsWithL : List Char → List Char → Bool
  | [], _ => true
  | _ :: _, [] => false
  | p :: ps, c :: cs => p == c && startsWithL ps cs

/-- Python's substring test `pat in s`. -/
def containsSub (pat : List Char) : List Char → Bool
  | [] => startsWithL pat []
  | c :: cs => startsWithL pat (c :: cs) || containsSub pat cs

/-- Python's `s.endswith(pat)`. -/
def endsWithL (pat l : List Char) : Bool :=
  startsWithL pat.reverse l.reverse

/-- Hexadecimal digit test for percent escapes. -/
def isHexDigitCh (c : Char) : Bool :=
  c.isDigit || ('a' ≤ c && c ≤ 'f') || ('A' ≤ c && c ≤ 'F')

/-- Value of a hexadecimal digit. -/
def hexVal (c : Char) : Nat :=
  if c.isDigit then c.toNat - '0'.toNat
  else if 'a' ≤ c && c ≤ 'f' then c.toNat - 'a'.toNat + 10
  else c.toNat - 'A'.toNat + 10

/-- Model of `urllib.parse.unquote` restricted to single-byte percent escapes:
`%XX` with two hex digits becomes the character with that code, anything else
is copied through.  (Multi-byte UTF-8 recombination is not modelled; no claim
depends on it.) -/
def pctDecode : List Char → List Char
  | '%' :: h1 :: h2 :: rest =>
    if isHexDigitCh h1 && isHexDigitCh h2 then
      Char.ofNat (16 * hexVal h1 + hexVal h2) :: pctDecode rest
    else
      '%' :: pctDecode (h1 :: h2 :: rest)
  | c :: rest => c :: pctDecode rest
  | [] => []

/-- `Config.ALLOWED_FILENAME_CHARS` from `config.py`. -/
def ALLOWED_FILENAME_CHARS : List Char :=
  "abcdefghijklmnopqrstuvwxyzABCDEFGHIJKLMNOPQRSTUVWXYZ0123456789 -_.()[]".toList

/-- `Config.MAX_FILENAME_LENGTH` from `config.py`. -/
def MAX_FILENAME_LENGTH : Nat := 255

/-- `validate_filename` from `src/utils/validation.py`: empty check, URL
decode, path-traversal / null-byte rejection, case-insensitive `.img`
extension, length cap, and stem character whitelist.  A raised
`ValidationError` is embedded as `Except.error` with the message text. -/
def validate_filename (filename : String) : Except String String :=
  if filename = "" then .error "Filename cannot be empty"
  else
    let fl := pctDecode filename.toList
    if containsSub ['.', '.'] fl || containsSub ['/'] fl || containsSub ['\\'] fl then
      .error "Invalid filename: path traversal detected"
    else if containsSub [Char.ofNat 0] fl then
      .error "Invalid filename: null byte detected"
    else if !endsWithL ".img".toList (fl.map Char.toLower) then
      .error "Invalid filename: only .img files are allowed"
    else if fl.length > MAX_FILENAME_LENGTH then
      .error "Invalid filename: filename too long"
    else if !(fl.take (fl.length - 4)).all (fun c => ALLOWED_FILENAME_CHARS.contains c) then
      .error "Invalid filename: contains invalid characters"
    else
      .ok (String.mk fl)

/-- Python `\s` on ASCII text. -/
def isSpaceCh (c : Char) : Bool :=
  c == ' ' || c == '\t' || c == '\n' || c == '\r' || c == Char.ofNat 11 || c == Char.ofNat 12

/-- The remainder of `l` after the first occurrence of the literal `lit`
(models the regex fragment `lit` preceded by a lazy `.*?`, and Python's
leftmost-match search). -/
def dropAfterLit (lit : List Char) : List Char → Option (List Char)
  | [] => if startsWithL lit [] then some [] else none
  | c :: cs =>
    if startsWithL lit (c :: cs) then some ((c :: cs).drop lit.length)
    else dropAfterLit lit cs

/-- Greedy match of the regex fragment `\d+\.?\d*` at the head of `l`,
returning the matched token and the rest.  (Greedy matching is exact here:
whenever the fragment can match at this position with backtracking, the
greedy parse succeeds with the same token.) -/
def numTok (l : List Char) : Option (List Char × List Char) :=
  let ds := l.takeWhile Char.isDigit
  if ds.isEmpty then none
  else
    match l.drop ds.length with
    | '.' :: r2 =>
      let ds2 := r2.takeWhile Char.isDigit
      some (ds ++ '.' :: ds2, r2.drop ds2.length)
    | r => some (ds, r)

/-- Match `(\d+\.?\d*)\s*%` at the head of `l`. -/
def matchPctAt (l : List Char) : Option (List Char × List Char) :=
  match numTok l with
  | none => none
  | some (n, r) =>
    match r.dropWhile isSpaceCh with
    | '%' :: r3 => some (n, r3)
    | _ => none

/-- Match `(\d+\.?\d*)\s*lit` at the head of `l` (used with `lit = "fps"`). -/
def matchNumLit (lit : List Char) (l : List Char) : Option (List Char × List Char) :=
  match numTok l with
  | none => none
  | some (n, r) =>
    let r2 := r.dropWhile isSpaceCh
    if startsWithL lit r2 then some (n, r2.drop lit.length) else none

/-- Leftmost match of `p` anywhere in `l` (the lazy `.*?` that precedes a
group in the source regex). -/
def searchP (p : List Char → Option (α × List Char)) : List Char → Option (α × List Char)
  | [] => p []
  | c :: cs =>
    match p (c :: cs) with
    | some r => some r
    | none => searchP p cs

/-- Numeric value of a digit list. -/
def natOfDigits (ds : List Char) : Nat :=
  ds.foldl (fun acc c => 10 * acc + (c.toNat - '0'.toNat)) 0

/-- Python `float` of a `\d+\.?\d*` token, embedded exactly as a rational. -/
def ratOfNumTok (tok : List Char) : Rat :=
  let ip := tok.takeWhile Char.isDigit
  match tok.drop ip.length with
  | '.' :: fp => (natOfDigits ip : Rat) + (natOfDigits fp : Rat) / ((10 : Rat) ^ fp.length)
  | _ => (natOfDigits ip : Rat)

/-- Match the optional regex group `(\d+N)?` (N a unit letter) at the head of
`l`: greedily take digits and require the letter right after.  Returns the
parsed count (or `none` for an absent group) and the rest. -/
def tryNumLetter (letter : Char) (l : List Char) : Option Nat × List Char :=
  let ds := l.takeWhile Char.isDigit
  if ds.isEmpty then (none, l)
  else
    match l.drop ds.length with
    | c :: r => if c == letter then (some (natOfDigits ds), r) else (none, l)
    | [] => (none, l)

/-- The full progress pattern
`Encoding:.*?(\d+\.?\d*)\s*%.*?(\d+\.?\d*)\s*fps.*?ETA\s*(\d+h)?(\d+m)?(\d+s)?`
from `_parse_handbrake_progress`, returning (percentage, fps, seconds
remaining).  Each lazy `.*?` is a leftmost search; the sequential leftmost
pipeline is equivalent to the backtracking regex because every later
alternative works on a suffix of the earlier remainder. -/
def fullProgressMatch (line : List Char) : Option (Rat × Rat × Nat) :=
  match dropAfterLit "Encoding:".toList line with
  | none => none
  | some r0 =>
    match searchP matchPctAt r0 with
    | none => none
    | some (pct, r1) =>
      match searchP (matchNumLit "fps".toList) r1 with
      | none => none
      | some (fps, r2) =>
        match dropAfterLit "ETA".toList r2 with
        | none => none
        | some r3 =>
          let r4 := r3.dropWhile isSpaceCh
          let (h, r5) := tryNumLetter 'h' r4
          let (m, r6) := tryNumLetter 'm' r5
          let (s, _) := tryNumLetter 's' r6
          some (ratOfNumTok pct, ratOfNumTok fps,
                h.getD 0 * 3600 + m.getD 0 * 60 + s.getD 0)

/-- The fallback percent-only pattern `Encoding:.*?(\d+\.?\d*)\s*%`. -/
def simpleProgressMatch (line : List Char) : Option Rat :=
  match dropAfterLit "Encoding:".toList line with
  | none => none
  | some r0 =>
    match searchP matchPctAt r0 with
    | none => none
    | some (pct, _) => some (ratOfNumTok pct)

/-- `EncodingEngine._parse_handbrake_progress`: full pattern first (fps and
ETA filled in), then the percent-only pattern (fps `0.0`, remaining time `0`),
then the scanning and muxing phase markers.  `now` is
`datetime.now().isoformat()`. -/
def parse_handbrake_progress (now : String) (line : String) : Option EncodingProgress :=
  let l := line.toList
  match fullProgressMatch l with
  | some (pct, fps, eta) =>
    some { percentage := pct, fps := fps, time_remaining := (eta : Int),
           phase := .encoding, last_updated := now }
  | none =>
    match simpleProgressMatch l with
    | some pct =>
      some { percentage := pct, fps := 0, time_remaining := 0,
             phase := .encoding, last_updated := now }
    | none =>
      if containsSub "Scanning title".toList l || containsSub "scan:".toList l then
        some { percentage := 0, phase := .scanning, last_updated := now }
      else if containsSub "Muxing".toList l then
        some { percentage := 99, phase := .muxing, last_updated := now }
      else
        none

/-- The per-line progress update in `_execute_encoding_job`: a parsed progress
replaces `job.progress` wholesale; an unrecognized line leaves it unchanged. -/
def applyProgressLine (j : EncodingJob) (now : String) (line : String) : EncodingJob :=
  match parse_handbrake_progress now line with
  | some p => { j with progress := p }
  | none => j

/-- Python `str.strip()` on ASCII whitespace. -/
def pyStrip (s : String) : String :=
  String.mk (((s.toList.dropWhile isSpaceCh).reverse.dropWhile isSpaceCh).reverse)

/-- The failure-log cleanup loop in `_handle_job_completion`: strip each line,
drop empty lines and lines starting with `"<job_id>:"`, delete stray newline
characters, and drop lines that become empty. -/
def cleanFailureLines (job_id : String) (lines : List String) : List String :=
  lines.filterMap (fun line =>
    let l := pyStrip line
    if l ≠ "" ∧ !startsWithL (job_id ++ ":").toList l.toList then
      let c := String.mk (l.toList.filter (fun ch => ch ≠ '\n' ∧ ch ≠ '\r'))
      if c ≠ "" then some c else none
    else none)

/-- The job-record effects of `EncodingEngine._handle_job_completion`
(`src/models/encoding_engine.py` 793–880).  On success: status COMPLETED and
the progress snapshot completed (the output-file size probe touches the
filesystem and is outside the embedding).  On failure: status FAILED, the
supplied error text, and the cleaned tail of at most 100 output lines. -/
def handle_job_completion (job_id : String) (j : EncodingJob) (success : Bool)
    (error_msg : String) (output_lines : List String) (now : String) : EncodingJob :=
  if success then
    { j with status := .completed,
             progress := { j.progress with percentage := 100, phase := .completed },
             completed_at := now }
  else
    let logs :=
      if output_lines ≠ [] then
        takeLastN 100 (cleanFailureLines job_id (takeLastN 100 output_lines))
      else []
    { j with status := .failed,
             error_message := error_msg,
             failure_logs := logs,
             completed_at := now }

/-- Dict lookup on a `job_id → EncodingJob` association list
(`self.active_jobs` / `self.queued_jobs`). -/
def jobLookup (m : List (String × EncodingJob)) (jid : String) : Option EncodingJob :=
  match m with
  | [] => none
  | (k, j) :: rest => if k = jid then some j else jobLookup rest jid

/-- Dict `del` / `pop`: remove the entry with the given key. -/
def jobRemove (m : List (String × EncodingJob)) (jid : String) : List (String × EncodingJob) :=
  m.filter (fun p => p.1 ≠ jid)

/-- Upsert into the persisted-job projection (`_persist_job_status` replaces
the matching record or appends a new one). -/
def jobUpsert (m : List (String × EncodingJob)) (jid : String) (j : EncodingJob) :
    List (String × EncodingJob) :=
  match m with
  | [] => [(jid, j)]
  | (k, j') :: rest =>
    if k = jid then (k, j) :: rest else (k, j') :: jobUpsert rest jid j

/-- `EncodingSettings.default_preset` default from `encoding_models.py`. -/
def DEFAULT_PRESET : String := "Fast 1080p30"

/-- `EncodingEngine._generate_output_filename`: the characters
`<>:"/\|?*` in the movie name become `_`, and the `.mp4` extension is
appended. -/
def generate_output_filename (movie_name : String) : String :=
  String.mk (movie_name.toList.map (fun c =>
    if ("<>:\"/\\|?*".toList).contains c then '_' else c)) ++ ".mp4"

/-- The engine state touched by the claims, from `EncodingEngine.__init__`:
the FIFO `encoding_queue` (a `queue.Queue` of `(job_id, job)` pairs, head
first), the `queued_jobs` and `active_jobs` dicts, plus three observation
projections — the persisted job records written by `_persist_job_status` /
`_complete_job_metadata_update` (keyed here by job id), the status-change
notifications emitted through `_notify_status_change`, and ghost lists
recording the order of submissions and of `_start_encoding_job` calls. -/
structure EngineState where
  encoding_queue : List (String × EncodingJob)
  queued_jobs : List (String × EncodingJob)
  active_jobs : List (String × EncodingJob)
  persisted : List (String × EncodingJob)
  events : List (String × EncodingStatus)
  submitted : List String
  started : List String
  deriving DecidableEq, Repr

/-- The freshly constructed engine. -/
def initState : EngineState :=
  { encoding_queue := [], queued_jobs := [], active_jobs := [],
    persisted := [], events := [], submitted := [], started := [] }

/-- Job ids known to the engine state (for the uuid-freshness hypothesis on
submission). -/
def EngineState.ids (s : EngineState) : List String :=
  s.encoding_queue.map Prod.fst ++ s.queued_jobs.map Prod.fst ++
    s.active_jobs.map Prod.fst ++ s.persisted.map Prod.fst

/-- The state transformation of `EncodingEngine.queue_encoding_job` after
filename validation (`src/models/encoding_engine.py` 188–228): build the job
with status QUEUED and `queue_position = qsize() + 1`, put it on the FIFO,
track it in `queued_jobs`, persist, and notify.  `jid` is the uuid-based job
id, `now` the construction clock. -/
def submitStep (s : EngineState) (file_name : String) (title_number : Int)
    (movie_name : String) (preset_name : String) (jid : String) (now : String) :
    EngineState :=
  let preset := if preset_name = "" then DEFAULT_PRESET else preset_name
  let job : EncodingJob :=
    EncodingJob.post_init now
      { file_name := file_name
        title_number := title_number
        movie_name := movie_name
        output_filename := generate_output_filename movie_name
        preset_name := preset
        status := .queued
        queue_position := (s.encoding_queue.length : Int) + 1 }
  { s with
    encoding_queue := s.encoding_queue ++ [(jid, job)]
    queued_jobs := s.queued_jobs ++ [(jid, job)]
    persisted := jobUpsert s.persisted jid job
    events := s.events ++ [(jid, EncodingStatus.queued)]
    submitted := s.submitted ++ [jid] }

/-- `EncodingEngine.queue_encoding_job` itself: validate the filename (a
`ValidationError` propagates before anything is enqueued or changed), then
enqueue and return the job id. -/
def queue_encoding_job (s : EngineState) (file_name : String) (title_number : Int)
    (movie_name : String) (preset_name : String) (jid : String) (now : String) :
    Except String (String × EngineState) :=
  match validate_filename file_name with
  | .error e => .error e
  | .ok fn => .ok (jid, submitStep s fn title_number movie_name preset_name jid now)

/-- One wake-up of `_process_queue` followed by `_start_encoding_job`
(`src/models/encoding_engine.py` 404–473): assuming a free worker slot and a
non-empty FIFO, pop the head `(job_id, job)`, drop it from `queued_jobs`
(`pop(job_id, None)`), mark it ENCODING with a start time, add it to
`active_jobs`, persist, and notify.  No status check is made on the popped
job. -/
def dispatchStep (s : EngineState) (now : String) : EngineState :=
  match s.encoding_queue with
  | [] => s
  | (jid, job) :: rest =>
    let job' := { job with status := .encoding, started_at := now }
    { s with
      encoding_queue := rest
      queued_jobs := jobRemove s.queued_jobs jid
      active_jobs := s.active_jobs ++ [(jid, job')]
      persisted := jobUpsert s.persisted jid job'
      events := s.events ++ [(jid, EncodingStatus.encoding)]
      started := s.started ++ [jid] }

/-- The state transformation of `_handle_job_completion` for a job in
`active_jobs`: update the job record (see `handle_job_completion`), remove it
from the active set, persist, and notify. -/
def completeStep (s : EngineState) (jid : String) (job : EncodingJob)
    (success : Bool) (error_msg : String) (output_lines : List String)
    (now : String) : EngineState :=
  let job' := handle_job_completion jid job success error_msg output_lines now
  { s with
    active_jobs := jobRemove s.active_jobs jid
    persisted := jobUpsert s.persisted jid job'
    events := s.events ++ [(jid, job'.status)] }

/-- `EncodingEngine.cancel_job` (`src/models/encoding_engine.py` 230–312).
An active job: terminate its process, mark it CANCELLED with a completion
time, remove it from `active_jobs`, persist, notify, return `True`.  A queued
job: remove it from the `queued_jobs` dict only — the `(job_id, job)` pair
stays on the FIFO, which offers no removal — mark it CANCELLED, persist,
notify, return `True`.  Otherwise return `False` with nothing changed. -/
def cancel_job (s : EngineState) (jid : String) (now : String) :
    Bool × EngineState :=
  match jobLookup s.active_jobs jid with
  | some job =>
    let job' := { job with status := .cancelled, completed_at := now }
    (true,
      { s with
        active_jobs := jobRemove s.active_jobs jid
        persisted := jobUpsert s.persisted jid job'
        events := s.events ++ [(jid, EncodingStatus.cancelled)] })
  | none =>
    match jobLookup s.queued_jobs jid with
    | some job =>
      let job' := { job with status := .cancelled, completed_at := now }
      (true,
        { s with
          queued_jobs := jobRemove s.queued_jobs jid
          persisted := jobUpsert s.persisted jid job'
          events := s.events ++ [(jid, EncodingStatus.cancelled)] })
    | none => (false, s)

/-- Reachable engine states under an arbitrary interleaving of submissions,
admissions (gated by the `active_count < max_concurrent` check of
`_process_queue`), completions and cancellations, with a fixed concurrency
limit `N = Settings.max_concurrent_encodes`. -/
inductive Reach (N : Nat) : EngineState → Prop where
  | init : Reach N initState
  | submit {s : EngineState} (file_name : String) (title_number : Int)
      (movie_name preset_name jid now : String) (res : String × EngineState) :
      Reach N s → jid ∉ s.ids →
      queue_encoding_job s file_name title_number movie_name preset_name jid now =
        .ok res →
      Reach N res.2
  | dispatch {s : EngineState} (now : String) :
      Reach N s → s.active_jobs.length < N → s.encoding_queue ≠ [] →
      Reach N (dispatchStep s now)
  | complete {s : EngineState} (jid : String) (job : EncodingJob)
      (success : Bool) (error_msg : String) (output_lines : List String)
      (now : String) :
      Reach N s → jobLookup s.active_jobs jid = some job →
      Reach N (completeStep s jid job success error_msg output_lines now)
  | cancel {s : EngineState} (jid now : String) :
      Reach N s → Reach N (cancel_job s jid now).2

/-- The engine's view of a job's recorded status: the live `active_jobs` /
`queued_jobs` records first (as in `get_job_status`), then the persisted
record. -/
def EngineState.statusOf (s : EngineState) (jid : String) : Option EncodingStatus :=
  match jobLookup s.active_jobs jid with
  | some j => some j.status
  | none =>
    match jobLookup s.queued_jobs jid with
    | some j => some j.status
    | none => (jobLookup s.persisted jid).map EncodingJob.status

/-- `MovieMetadataManager.load_metadata`: validate the filename (raising
`ValidationError` before anything else), then read the record (projected onto
the encoding section; the source-file existence probe is a filesystem check
outside the embedding). -/
def load_metadata (st : MetaStore) (img_file : String) : Except String Metadata :=
  match validate_filename img_file with
  | .error e => .error e
  | .ok fn => .ok (loadRecord st fn)

/-- `MovieMetadataManager.save_metadata`: validate the filename first, then
atomically write the record under its key. -/
def save_metadata (st : MetaStore) (img_file : String) (m : Metadata) :
    Except String MetaStore :=
  match validate_filename img_file with
  | .error e => .error e
  | .ok fn => .ok (saveRecord st fn m)

/-- Demonstration trace, step 1: submit ("a.img", title 1) as job `j1`. -/
def demoS1 : EngineState := submitStep initState "a.img" 1 "Movie" "" "j1" "t0"

/-- Demonstration trace, step 2: cancel `j1` while it is still QUEUED. -/
def demoS2 : EngineState := (cancel_job demoS1 "j1" "t1").2

/-- Demonstration trace, step 3: the queue processor wakes and dispatches the head
of the FIFO. -/
def demoS3 : EngineState := dispatchStep demoS2 "t2"

/-- Demonstration trace variant: a second submission for the same
("a.img", title 1) pair while `j1` is still QUEUED. -/
def demoDup : EngineState := submitStep demoS1 "a.img" 1 "Movie" "" "j2" "t1"

/-- A concrete job record used to exercise the embedded operations. -/
def demoJob : EncodingJob :=
  { file_name := "a.img", title_number := 1, movie_name := "Movie",
    output_filename := "Movie.mp4", preset_name := "Fast 1080p30",
    created_at := "c" }

/-- A concrete history entry used to exercise the embedded operations. -/
def demoHist : EncodingHistory :=
  { attempt_id := "a.img_1_20240101_000000", started_at := "s",
    completed_at := "e", status := .completed }

/-- A metadata record whose history already holds 10 entries. -/
def demoMeta10 : Metadata :=
  { encoding := some { jobs := [], history := List.replicate 10 demoHist.to_dict } }

/-- A full HandBrake progress line (percentage, fps and ETA fields). -/
def demoFullLine : String :=
  "Encoding: task 1 of 1, 45.67 % (123.45 fps, avg 98.76 fps, ETA 00h01m05s)"

/-- A percent-only HandBrake progress line (no fps/ETA fields). -/
def demoPctLine : String := "Encoding: task 1 of 1, 50.00 %"

theorem status_ofValue_value (st : EncodingStatus) :
    EncodingStatus.ofValue st.value = some st := by
  cases st <;> rfl

theorem phase_ofValue_value (ph : EncodingPhase) :
    EncodingPhase.ofValue ph.value = some ph := by
  cases ph <;> rfl

theorem progress_from_dict_to_dict (p : EncodingProgress) :
    EncodingProgress.from_dict p.to_dict = some p := by
  unfold EncodingProgress.from_dict EncodingProgress.to_dict
  rw [phase_ofValue_value]

theorem job_from_dict_to_dict (now : String) (j : EncodingJob)
    (h : j.created_at ≠ "") :
    EncodingJob.from_dict now j.to_dict = some j := by
  simp only [EncodingJob.from_dict, EncodingJob.to_dict, status_ofValue_value,
    progress_from_dict_to_dict, EncodingJob.post_init, if_neg h]

theorem history_from_dict_to_dict (h : EncodingHistory) :
    EncodingHistory.from_dict h.to_dict = some h := by
  unfold EncodingHistory.from_dict EncodingHistory.to_dict
  rw [status_ofValue_value]

theorem EncodingJob.post_init_status (now : String) (j : EncodingJob) :
    (EncodingJob.post_init now j).status = j.status := by
  unfold EncodingJob.post_init
  split <;> rfl

theorem jobLookup_mem {m : List (String × EncodingJob)} {jid : String}
    {j : EncodingJob} (h : jobLookup m jid = some j) : (jid, j) ∈ m := by
  induction m with
  | nil => simp [jobLookup] at h
  | cons p rest ih =>
    rw [jobLookup] at h
    by_cases hk : p.1 = jid
    · rw [if_pos hk] at h
      cases h
      have hp : (jid, p.2) = p := by
        rw [← hk]
      rw [hp]
      exact List.mem_cons_self _ _
    · rw [if_neg hk] at h
      exact List.mem_cons_of_mem _ (ih h)

theorem takeLastN_suffix (n : Nat) (l : List α) : takeLastN n l <:+ l :=
  List.drop_suffix _ _

theorem takeLastN_length_le (n : Nat) (l : List α) : (takeLastN n l).length ≤ n := by
  simp only [takeLastN, List.length_drop]
  omega

theorem takeLastN_length_of_le {n : Nat} {l : List α} (h : n ≤ l.length) :
    (takeLastN n l).length = n := by
  simp only [takeLastN, List.length_drop]
  omega

theorem takeLastN_getLast? {n : Nat} {l : List α} (hn : 0 < n) (hl : l ≠ []) :
    (takeLastN n l).getLast? = l.getLast? := by
  conv_rhs => rw [← List.take_append_drop (l.length - n) l]
  rw [List.getLast?_append]
  have hne : takeLastN n l ≠ [] := by
    have : (takeLastN n l).length ≠ 0 := by
      simp only [takeLastN, List.length_drop]
      have : l.length ≠ 0 := fun h => hl (List.length_eq_zero.mp h)
      omega
    exact fun h => this (by rw [h]; rfl)
  obtain ⟨a, ha⟩ := Option.ne_none_iff_exists'.mp
    (mt List.getLast?_eq_none_iff.mp hne)
  rw [show (l.drop (l.length - n)) = takeLastN n l from rfl, ha]
  rfl

theorem cleanFailureLines_append (jid : String) (l₁ l₂ : List String) :
    cleanFailureLines jid (l₁ ++ l₂) =
      cleanFailureLines jid l₁ ++ cleanFailureLines jid l₂ := by
  simp [cleanFailureLines]

theorem cleanFailureLines_suffix (jid : String) {l₁ l₂ : List String}
    (h : l₁ <:+ l₂) : cleanFailureLines jid l₁ <:+ cleanFailureLines jid l₂ := by
  obtain ⟨t, rfl⟩ := h
  rw [cleanFailureLines_append]
  exact ⟨_, rfl⟩

theorem ExtendedMetadata.section_of_ensure (m : Metadata) :
    ExtendedMetadata.section_of (ExtendedMetadata.ensure_encoding_structure m) =
      ExtendedMetadata.section_of m := by
  unfold ExtendedMetadata.section_of ExtendedMetadata.ensure_encoding_structure
  cases m.encoding <;> rfl

theorem loadRecord_saveRecord (st : MetaStore) (key : String) (m : Metadata) :
    loadRecord (saveRecord st key m) key =
      ExtendedMetadata.ensure_encoding_structure m := by
  unfold loadRecord saveRecord
  rw [storeLookup_upsert]

theorem Reach.activeQueuedInv {N : Nat} {s : EngineState} (h : Reach N s) :
    (∀ p ∈ s.active_jobs, p.2.status = EncodingStatus.encoding) ∧
    (∀ p ∈ s.queued_jobs, p.2.status = EncodingStatus.queued) := by
  induction h with
  | init => simp [initState]
  | @submit s file_name title_number movie_name preset_name jid now res _ hfresh hok ih =>
    unfold queue_encoding_job at hok
    cases hv : validate_filename file_name with
    | error e =>
      rw [hv] at hok
      exact absurd hok (by simp)
    | ok fn =>
      rw [hv] at hok
      cases hok
      refine ⟨fun p hp => ih.1 p hp, fun p hp => ?_⟩
      simp only [submitStep, List.mem_append] at hp
      rcases hp with h1 | h2
      · exact ih.2 p h1
      · simp only [List.mem_singleton] at h2
        subst h2
        rw [EncodingJob.post_init_status]
  | @dispatch s now _ hlt hne ih =>
    cases hq : s.encoding_queue with
    | nil => exact absurd hq hne
    | cons hd tl =>
      constructor
      · intro p hp
        simp only [dispatchStep, hq, List.mem_append] at hp
        rcases hp with h1 | h2
        · exact ih.1 p h1
        · simp only [List.mem_singleton] at h2
          subst h2
          rfl
      · intro p hp
        simp only [dispatchStep, hq] at hp
        exact ih.2 p (List.mem_of_mem_filter hp)
  | @complete s jid job success error_msg output_lines now _ hlook ih =>
    refine ⟨fun p hp => ?_, fun p hp => ih.2 p hp⟩
    simp only [completeStep] at hp
    exact ih.1 p (List.mem_of_mem_filter hp)
  | @cancel s jid now _ ih =>
    cases h1 : jobLookup s.active_jobs jid with
    | some job =>
      simp only [cancel_job, h1]
      refine ⟨fun p hp => ih.1 p (List.mem_of_mem_filter hp), fun p hp => ih.2 p hp⟩
    | none =>
      cases h2 : jobLookup s.queued_jobs jid with
      | some job =>
        simp only [cancel_job, h1, h2]
        refine ⟨fun p hp => ih.1 p hp, fun p hp => ih.2 p (List.mem_of_mem_filter hp)⟩
      | none =>
        simp only [cancel_job, h1, h2]
        exact ih

theorem Reach.active_le {N : Nat} {s : EngineState} (h : Reach N s) :
    s.active_jobs.length ≤ N := by
  induction h with
  | init => simp [initState]
  | @submit s file_name title_number movie_name preset_name jid now res _ hfresh hok ih =>
    unfold queue_encoding_job at hok
    cases hv : validate_filename file_name with
    | error e =>
      rw [hv] at hok
      exact absurd hok (by simp)
    | ok fn =>
      rw [hv] at hok
      cases hok
      simpa [submitStep] using ih
  | @dispatch s now _ hlt hne ih =>
    cases hq : s.encoding_queue with
    | nil => exact absurd hq hne
    | cons hd tl =>
      simp only [dispatchStep, hq, List.length_append, List.length_singleton]
      omega
  | @complete s jid job success error_msg output_lines now _ hlook ih =>
    simp only [completeStep, jobRemove]
    exact le_trans (List.length_filter_le _ _) ih
  | @cancel s jid now _ ih =>
    cases h1 : jobLookup s.active_jobs jid with
    | some job =>
      simp only [cancel_job, h1, jobRemove]
      exact le_trans (List.length_filter_le _ _) ih
    | none =>
      cases h2 : jobLookup s.queued_jobs jid with
      | some job =>
        simp only [cancel_job, h1, h2]
        exact ih
      | none =>
        simp only [cancel_job, h1, h2]
        exact ih

theorem Reach.fifo_eq {N : Nat} {s : EngineState} (h : Reach N s) :
    s.started ++ s.encoding_queue.map Prod.fst = s.submitted := by
  induction h with
  | init => simp [initState]
  | @submit s file_name title_number movie_name preset_name jid now res _ hfresh hok ih =>
    unfold queue_encoding_job at hok
    cases hv : validate_filename file_name with
    | error e =>
      rw [hv] at hok
      exact absurd hok (by simp)
    | ok fn =>
      rw [hv] at hok
      cases hok
      simp only [submitStep, List.map_append, List.map_cons, List.map_nil]
      rw [← List.append_assoc, ih]
  | @dispatch s now _ hlt hne ih =>
    cases hq : s.encoding_queue with
    | nil => exact absurd hq hne
    | cons hd tl =>
      simp only [dispatchStep, hq]
      rw [hq, List.map_cons] at ih
      rw [List.append_assoc]
      exact ih
  | @complete s jid job success error_msg output_lines now _ hlook ih =>
    simpa [completeStep] using ih
  | @cancel s jid now _ ih =>
    cases h1 : jobLookup s.active_jobs jid with
    | some job =>
      simpa [cancel_job, h1] using ih
    | none =>
      cases h2 : jobLookup s.queued_jobs jid with
      | some job =>
        simpa [cancel_job, h1, h2] using ih
      | none =>
        simpa [cancel_job, h1, h2] using ih

theorem reach_demoS1 : Reach 1 demoS1 :=
  Reach.submit "a.img" 1 "Movie" "" "j1" "t0" ("j1", demoS1) Reach.init (by decide) rfl

theorem reach_demoS2 : Reach 1 demoS2 :=
  Reach.cancel "j1" "t1" reach_demoS1

theorem reach_demoS3 : Reach 1 demoS3 :=
  Reach.dispatch "t2" reach_demoS2 (by decide) (by decide)

theorem reach_demoDup : Reach 1 demoDup :=
  Reach.submit "a.img" 1 "Movie" "" "j2" "t1" ("j2", demoDup) reach_demoS1 (by decide) rfl

/-- C1: the claim says a second `queue_encoding_job` call for the same
(file_name, title_number) pair while the first job is still QUEUED is rejected
with a `DuplicateJob` error and enqueues nothing.  The code has no duplicate
check at all: evaluated at ("a.img", 1), the second call succeeds, returns the
fresh job id "j2", and the reachable state `demoDup` holds two pending QUEUED
jobs for the same pair. -/
theorem duplicate_pending_submission_not_rejected :
    queue_encoding_job initState "a.img" 1 "Movie" "" "j1" "t0" =
      Except.ok ("j1", demoS1) ∧
    (jobLookup demoS1.queued_jobs "j1").map EncodingJob.status =
      some EncodingStatus.queued ∧
    queue_encoding_job demoS1 "a.img" 1 "Movie" "" "j2" "t1" =
      Except.ok ("j2", demoDup) ∧
    demoDup.queued_jobs.countP
      (fun p => p.2.file_name == "a.img" && p.2.title_number == 1) = 2 ∧
    Reach 1 demoDup :=
  ⟨rfl, by decide, rfl, by decide, reach_demoDup⟩

/-- C2: the claim says a job cancelled while QUEUED is never started and stays
CANCELLED forever.  In the code, `cancel_job` removes the job from the
`queued_jobs` dict but cannot remove the `(job_id, job)` pair from the
`encoding_queue` FIFO, and `_process_queue` / `_start_encoding_job` pops and
starts it without any status check: after cancelling `j1` (its persisted
status is CANCELLED and `cancel_job` returned `True`), the next admission
step reaches a state in which `j1` is in `active_jobs` with status ENCODING
and has been handed to the worker pool. -/
theorem cancelled_queued_job_still_started :
    cancel_job demoS1 "j1" "t1" = (true, demoS2) ∧
    (jobLookup demoS2.persisted "j1").map EncodingJob.status =
      some EncodingStatus.cancelled ∧
    demoS2.encoding_queue.map Prod.fst = ["j1"] ∧
    Reach 1 demoS3 ∧
    (jobLookup demoS3.active_jobs "j1").map EncodingJob.status =
      some EncodingStatus.encoding ∧
    demoS3.started = ["j1"] :=
  ⟨by decide, by decide, by decide, reach_demoS3, by decide, by decide⟩

/-- C3: in every reachable engine state, under any interleaving of submit,
dispatch, complete and cancel steps with a fixed concurrency limit
`N = Settings.max_concurrent_encodes ≥ 1`, the number of jobs simultaneously
in the RUNNING/ENCODING set (`active_jobs`) never exceeds `N`. -/
theorem concurrency_bound {N : Nat} {s : EngineState} (h : Reach N s)
    (_hN : 1 ≤ N) : s.active_jobs.length ≤ N :=
  Reach.active_le h

theorem concurrency_bound_witness :
    1 ≤ 1 ∧ demoS3.active_jobs.length ≤ 1 :=
  ⟨by decide, concurrency_bound reach_demoS3 (by decide)⟩

/-- C4: jobs move from the FIFO to the running set in exactly submission
order: in every reachable state the chronological list of started job ids
followed by the ids still on the FIFO equals the chronological list of
submitted job ids — so the started ids are a prefix of the submission order
and the scheduler never reorders pending jobs.  (Proved for every concurrency
limit, which includes the claim's `max_concurrent_encodes = 1`.) -/
theorem fifo_admission {N : Nat} {s : EngineState} (h : Reach N s) :
    s.started ++ s.encoding_queue.map Prod.fst = s.submitted ∧
    s.started <+: s.submitted :=
  ⟨Reach.fifo_eq h, ⟨s.encoding_queue.map Prod.fst, Reach.fifo_eq h⟩⟩

theorem fifo_admission_witness :
    demoDup.started ++ demoDup.encoding_queue.map Prod.fst = demoDup.submitted ∧
    demoDup.started <+: demoDup.submitted :=
  fifo_admission reach_demoDup

/-- C5: `cancel_job` on a job id that is unknown, or whose recorded status is
terminal (COMPLETED, FAILED or CANCELLED — by the engine invariant such a job
is in neither `active_jobs` nor `queued_jobs`), returns `False` and leaves the
state exactly as it was: job records, queues, persisted records and the
status-change notification stream are all unchanged. -/
theorem cancel_terminal_noop {N : Nat} {s : EngineState} {jid : String}
    (now : String) (h : Reach N s)
    (hterm : s.statusOf jid = none ∨
      ∃ st, s.statusOf jid = some st ∧ st.isTerminal = true) :
    cancel_job s jid now = (false, s) := by
  have hinv := Reach.activeQueuedInv h
  cases h1 : jobLookup s.active_jobs jid with
  | some j =>
    have hst : j.status = EncodingStatus.encoding := hinv.1 (jid, j) (jobLookup_mem h1)
    have hso : s.statusOf jid = some j.status := by
      simp [EngineState.statusOf, h1]
    rcases hterm with hnone | ⟨st, hsome, hT⟩
    · rw [hso] at hnone
      exact absurd hnone (by simp)
    · rw [hso] at hsome
      cases hsome
      rw [hst] at hT
      exact absurd hT (by decide)
  | none =>
    cases h2 : jobLookup s.queued_jobs jid with
    | some j =>
      have hst : j.status = EncodingStatus.queued := hinv.2 (jid, j) (jobLookup_mem h2)
      have hso : s.statusOf jid = some j.status := by
        simp [EngineState.statusOf, h1, h2]
      rcases hterm with hnone | ⟨st, hsome, hT⟩
      · rw [hso] at hnone
        exact absurd hnone (by simp)
      · rw [hso] at hsome
        cases hsome
        rw [hst] at hT
        exact absurd hT (by decide)
    | none =>
      simp [cancel_job, h1, h2]

theorem cancel_terminal_noop_witness :
    (demoS2.statusOf "j1" = some EncodingStatus.cancelled ∧
      EncodingStatus.cancelled.isTerminal = true) ∧
    cancel_job demoS2 "j1" "t9" = (false, demoS2) :=
  ⟨⟨by decide, by decide⟩,
    cancel_terminal_noop "t9" reach_demoS2
      (Or.inr ⟨EncodingStatus.cancelled, by decide, by decide⟩)⟩

/-- C6: serialization round-trips — `EncodingProgress`, `EncodingJob` (for any
job value whose `created_at` is populated, as `__post_init__` guarantees at
construction) and `EncodingHistory` all satisfy `from_dict (to_dict x) = x`,
and a record saved through `save_metadata` and re-read through `load_metadata`
yields the same job list and the same history as the record that was saved. -/
theorem persistence_round_trip (now : String) (p : EncodingProgress)
    (j : EncodingJob) (hist : EncodingHistory) (st st' : MetaStore)
    (key key' : String) (m : Metadata)
    (hj : j.created_at ≠ "")
    (hv : validate_filename key = .ok key')
    (hs : save_metadata st key m = .ok st') :
    EncodingProgress.from_dict p.to_dict = some p ∧
    EncodingJob.from_dict now j.to_dict = some j ∧
    EncodingHistory.from_dict hist.to_dict = some hist ∧
    load_metadata st' key =
      .ok (ExtendedMetadata.ensure_encoding_structure m) ∧
    ExtendedMetadata.get_encoding_jobs now
        (ExtendedMetadata.ensure_encoding_structure m) =
      ExtendedMetadata.get_encoding_jobs now m ∧
    ExtendedMetadata.get_encoding_history
        (ExtendedMetadata.ensure_encoding_structure m) =
      ExtendedMetadata.get_encoding_history m := by
  have hst' : st' = saveRecord st key' m := by
    unfold save_metadata at hs
    rw [hv] at hs
    cases hs
    rfl
  refine ⟨progress_from_dict_to_dict p,
    job_from_dict_to_dict now j hj,
    history_from_dict_to_dict hist, ?_, ?_, ?_⟩
  · unfold load_metadata
    rw [hv, hst']
    show Except.ok (loadRecord (saveRecord st key' m) key') = _
    rw [loadRecord_saveRecord]
  · unfold ExtendedMetadata.get_encoding_jobs
    rw [ExtendedMetadata.section_of_ensure]
  · unfold ExtendedMetadata.get_encoding_history
    rw [ExtendedMetadata.section_of_ensure]

theorem persistence_round_trip_witness :
    EncodingJob.from_dict "T" demoJob.to_dict = some demoJob ∧
    EncodingHistory.from_dict demoHist.to_dict = some demoHist ∧
    load_metadata (saveRecord [] "a.img" { encoding := none }) "a.img" =
      .ok (ExtendedMetadata.ensure_encoding_structure { encoding := none }) := by
  have h := persistence_round_trip "T" {} demoJob demoHist []
    (saveRecord [] "a.img" { encoding := none }) "a.img" "a.img"
    { encoding := none } (by decide) rfl rfl
  exact ⟨h.2.1, h.2.2.1, h.2.2.2.1⟩

/-- C7: `add_encoding_history` keeps the history bounded — the result has at
most 10 entries, is a suffix of the prior history with the new entry appended
(so only the oldest entries are ever evicted), always retains the newly
appended entry as its last element, and when the prior history already held
10 or more entries the result is exactly the most recent 10 entries of the
appended list. -/
theorem add_history_bounded (m : Metadata) (e : EncodingHistory) :
    (ExtendedMetadata.section_of
        (ExtendedMetadata.add_encoding_history m e)).history.length ≤ 10 ∧
    (ExtendedMetadata.section_of
        (ExtendedMetadata.add_encoding_history m e)).history <:+
      ((ExtendedMetadata.section_of m).history ++ [e.to_dict]) ∧
    (ExtendedMetadata.section_of
        (ExtendedMetadata.add_encoding_history m e)).history.getLast? =
      some e.to_dict ∧
    (10 ≤ (ExtendedMetadata.section_of m).history.length →
      (ExtendedMetadata.section_of
          (ExtendedMetadata.add_encoding_history m e)).history =
        takeLastN 10 ((ExtendedMetadata.section_of m).history ++ [e.to_dict])) := by
  have hsec : (ExtendedMetadata.section_of
      (ExtendedMetadata.add_encoding_history m e)).history =
      (if ((ExtendedMetadata.section_of m).history ++ [e.to_dict]).length > 10 then
        takeLastN 10 ((ExtendedMetadata.section_of m).history ++ [e.to_dict])
      else (ExtendedMetadata.section_of m).history ++ [e.to_dict]) := rfl
  rw [hsec]
  by_cases hlen : ((ExtendedMetadata.section_of m).history ++ [e.to_dict]).length > 10
  · rw [if_pos hlen]
    refine ⟨takeLastN_length_le _ _, takeLastN_suffix _ _, ?_, fun _ => rfl⟩
    rw [takeLastN_getLast? (by decide) (by simp), List.getLast?_concat]
  · rw [if_neg hlen]
    refine ⟨by omega, List.suffix_refl _, List.getLast?_concat _, fun h10 => ?_⟩
    exact absurd (by simp; omega : ((ExtendedMetadata.section_of m).history ++
      [e.to_dict]).length > 10) hlen

theorem add_history_bounded_witness :
    10 ≤ (ExtendedMetadata.section_of demoMeta10).history.length ∧
    (ExtendedMetadata.section_of
        (ExtendedMetadata.add_encoding_history demoMeta10 demoHist)).history =
      takeLastN 10
        ((ExtendedMetadata.section_of demoMeta10).history ++ [demoHist.to_dict]) ∧
    (ExtendedMetadata.section_of
        (ExtendedMetadata.add_encoding_history demoMeta10 demoHist)).history.length ≤ 10 :=
  ⟨by decide,
    (add_history_bounded demoMeta10 demoHist).2.2.2 (by decide),
    (add_history_bounded demoMeta10 demoHist).1⟩

set_option maxRecDepth 4000 in
unseal Rat.add Rat.mul Rat.inv in
/-- C8 counterexample: the claim says a percent-only "Encoding:" line produces
a partial update that leaves fps and ETA at their values from the previous
full progress update.  Evaluated on the code: after a full update with
fps `123.45` and 65 seconds remaining, the percent-only line yields a progress
whose fps is `0` and whose remaining time is `0` — both differ from the prior
values, so they are reset, not preserved. -/
theorem percent_only_preserves_rate_false :
    (applyProgressLine demoJob "t1" demoFullLine).progress.fps = 2469 / 20 ∧
    (applyProgressLine demoJob "t1" demoFullLine).progress.time_remaining = 65 ∧
    (applyProgressLine (applyProgressLine demoJob "t1" demoFullLine) "t2"
        demoPctLine).progress.percentage = 50 ∧
    (applyProgressLine (applyProgressLine demoJob "t1" demoFullLine) "t2"
        demoPctLine).progress.fps ≠
      (applyProgressLine demoJob "t1" demoFullLine).progress.fps ∧
    (applyProgressLine (applyProgressLine demoJob "t1" demoFullLine) "t2"
        demoPctLine).progress.time_remaining ≠
      (applyProgressLine demoJob "t1" demoFullLine).progress.time_remaining := by
  decide

/-- C8 (amended): a line matching only the percent pattern produces a full
replacement progress value whose percentage is the parsed value and whose fps
and remaining time are reset to `0` (phase ENCODING); applying it overwrites
the prior rate and ETA instead of preserving them. -/
theorem percent_only_line_resets_rate (now line : String) (j : EncodingJob)
    (pct : Rat)
    (hfull : fullProgressMatch line.toList = none)
    (hsimple : simpleProgressMatch line.toList = some pct) :
    (applyProgressLine j now line).progress =
      { percentage := pct, fps := 0, time_remaining := 0,
        phase := EncodingPhase.encoding, last_updated := now } := by
  have hfull' : fullProgressMatch line.data = none := hfull
  have hsimple' : simpleProgressMatch line.data = some pct := hsimple
  simp [applyProgressLine, parse_handbrake_progress, hfull', hsimple']

set_option maxRecDepth 4000 in
unseal Rat.add Rat.mul Rat.inv in
theorem percent_only_line_resets_rate_witness :
    fullProgressMatch demoPctLine.toList = none ∧
    simpleProgressMatch demoPctLine.toList = some 50 ∧
    (applyProgressLine demoJob "t2" demoPctLine).progress =
      { percentage := 50, fps := 0, time_remaining := 0,
        phase := EncodingPhase.encoding, last_updated := "t2" } :=
  ⟨by decide, by decide,
    percent_only_line_resets_rate "t2" demoPctLine demoJob 50 (by decide) (by decide)⟩

/-- C9: when a job terminates unsuccessfully, `_handle_job_completion` sets
its status to FAILED, stores the supplied error text in `error_message`, and
fills `failure_logs` with at most 100 lines drawn from the tail of the
captured output (the result is a suffix of the cleaned output stream); on
successful completion the status is COMPLETED and the diagnostic tail is left
unpopulated. -/
theorem job_completion_failure_fields (job_id : String) (j : EncodingJob)
    (error_msg : String) (output_lines : List String) (now : String) :
    ((handle_job_completion job_id j false error_msg output_lines now).status =
        EncodingStatus.failed ∧
      (handle_job_completion job_id j false error_msg output_lines now).error_message =
        error_msg ∧
      (handle_job_completion job_id j false error_msg output_lines
          now).failure_logs.length ≤ 100 ∧
      (handle_job_completion job_id j false error_msg output_lines now).failure_logs <:+
        cleanFailureLines job_id output_lines) ∧
    ((handle_job_completion job_id j true error_msg output_lines now).status =
        EncodingStatus.completed ∧
      (handle_job_completion job_id j true error_msg output_lines now).failure_logs =
        j.failure_logs) := by
  unfold handle_job_completion
  refine ⟨⟨rfl, rfl, ?_, ?_⟩, rfl, rfl⟩
  · show (if output_lines ≠ [] then
        takeLastN 100 (cleanFailureLines job_id (takeLastN 100 output_lines))
      else []).length ≤ 100
    split
    · exact takeLastN_length_le _ _
    · exact Nat.zero_le _
  · show (if output_lines ≠ [] then
        takeLastN 100 (cleanFailureLines job_id (takeLastN 100 output_lines))
      else []) <:+ cleanFailureLines job_id output_lines
    split
    · exact List.IsSuffix.trans (takeLastN_suffix _ _)
        (cleanFailureLines_suffix job_id (takeLastN_suffix _ _))
    · exact List.nil_suffix

/-- C10: every file name the public operations accept has passed
`validate_filename`, whose accepted output is non-empty, ends with `.img`
case-insensitively, contains no `/`, `\`, `..` substring or NUL byte, is at
most 255 characters, and has its stem drawn from the allowed character set;
on any other input `queue_encoding_job`, `load_metadata` and `save_metadata`
raise the `ValidationError` synchronously, before anything is enqueued or any
state is changed. -/
theorem filename_validation :
    (∀ fn out, validate_filename fn = .ok out →
      out ≠ "" ∧
      endsWithL ".img".toList (out.toList.map Char.toLower) = true ∧
      containsSub ['/'] out.toList = false ∧
      containsSub ['\\'] out.toList = false ∧
      containsSub ['.', '.'] out.toList = false ∧
      containsSub [Char.ofNat 0] out.toList = false ∧
      out.length ≤ MAX_FILENAME_LENGTH ∧
      (out.toList.take (out.toList.length - 4)).all
        (fun c => ALLOWED_FILENAME_CHARS.contains c) = true) ∧
    (∀ fn e s title movie preset jid now, validate_filename fn = .error e →
      queue_encoding_job s fn title movie preset jid now = .error e) ∧
    (∀ fn e st, validate_filename fn = .error e →
      load_metadata st fn = .error e) ∧
    (∀ fn e st m, validate_filename fn = .error e →
      save_metadata st fn m = .error e) := by
  refine ⟨?_, ?_, ?_, ?_⟩
  · intro fn out h
    unfold validate_filename at h
    by_cases h0 : fn = ""
    · rw [if_pos h0] at h
      exact absurd h (by simp)
    · rw [if_neg h0] at h
      simp only at h
      split_ifs at h with hc1 hc2 hc3 hc4 hc5
      cases h
      have hdata : (String.mk (pctDecode fn.toList)).toList = pctDecode fn.toList := rfl
      have hlen : (String.mk (pctDecode fn.toList)).length =
          (pctDecode fn.toList).length := rfl
      rw [Bool.not_eq_true, Bool.or_eq_false_iff, Bool.or_eq_false_iff] at hc1
      rw [Bool.not_eq_true] at hc2
      rw [Bool.not_eq_true, Bool.not_eq_false'] at hc3
      rw [Bool.not_eq_true, Bool.not_eq_false'] at hc5
      have hend : endsWithL ".img".toList
          ((pctDecode fn.toList).map Char.toLower) = true := hc3
      refine ⟨?_, by rw [hdata]; exact hend, by rw [hdata]; exact hc1.1.2,
        by rw [hdata]; exact hc1.2, by rw [hdata]; exact hc1.1.1,
        by rw [hdata]; exact hc2, by rw [hlen]; omega, by rw [hdata]; exact hc5⟩
      intro hemp
      have hnil : pctDecode fn.toList = [] := congrArg String.toList hemp
      rw [hnil] at hend
      exact absurd hend (by decide)
  · intro fn e s title movie preset jid now hv
    simp [queue_encoding_job, hv]
  · intro fn e st hv
    simp [load_metadata, hv]
  · intro fn e st m hv
    simp [save_metadata, hv]

theorem filename_validation_witness :
    validate_filename "Movie (2020).img" = Except.ok "Movie (2020).img" ∧
    ("Movie (2020).img" : String) ≠ "" ∧
    endsWithL ".img".toList
      (("Movie (2020).img" : String).toList.map Char.toLower) = true ∧
    ("Movie (2020).img" : String).length ≤ MAX_FILENAME_LENGTH ∧
    queue_encoding_job initState "evil.txt" 1 "M" "" "j9" "t0" =
      Except.error "Invalid filename: only .img files are allowed" := by
  refine ⟨rfl, ?_, ?_, ?_, ?_⟩
  · exact (filename_validation.1 "Movie (2020).img" "Movie (2020).img" rfl).1
  · exact (filename_validation.1 "Movie (2020).img" "Movie (2020).img" rfl).2.1
  · exact (filename_validation.1 "Movie (2020).img"
      "Movie (2020).img" rfl).2.2.2.2.2.2.1
  · exact filename_validation.2.1 "evil.txt" _ initState 1 "M" "" "j9" "t0" rfl

end DiskExtractor
